import Mathlib

/-!
Verification development for the `memory_arena.hpp` header of the memory repository.

The header defines:
* `memory_block`, a plain (address, size) descriptor with three constructors;
* `detail::memory_block_stack`, an intrusive LIFO stack of blocks (its
  `push`/`pop`/`steal_top`/`top` member functions are only declared in the header;
  their definitions live outside this repository snapshot, so they are modelled
  from the specification);
* `memory_arena<BlockAllocator>`, which composes two block stacks (`used_`,
  `cached_`) and two counters (`no_used_`, `no_cached_`) on top of a pluggable
  block-acquisition strategy.

Addresses are modelled as natural numbers, with the null pointer as 0.  The
strategy is modelled as a record of pure functions over an abstract strategy
state `σ`; a possibly failing `allocate_block` returns `Option`.  Every arena
operation additionally returns the list of strategy calls it performed
(`StratEvent`s), so that claims about "exactly one strategy call" and about the
order of block releases can be stated and proved.
-/

namespace MemoryArena

/-- the `memory_block` struct: a plain (address, size) descriptor.
Addresses are naturals; the null pointer is 0. -/
structure memory_block where
  memory : Nat
  size : Nat
deriving DecidableEq

/-- the `memory_block(void* mem, std::size_t size)` constructor: stores exactly
the given address and size. -/
def memory_block.fromAddrSize (mem : Nat) (sz : Nat) : memory_block :=
  ⟨mem, sz⟩

/-- the `memory_block(void* begin, void* end)` constructor: delegates to the
(address, size) form with size `static_cast<char*>(end) - static_cast<char*>(begin)`.
The pointer difference is a signed value implicitly converted to `std::size_t`,
modelled as an integer difference reduced modulo `2 ^ 64`. -/
def memory_block.fromRange (bg en : Nat) : memory_block :=
  memory_block.fromAddrSize bg ((((en : Int) - (bg : Int)) % (2 : Int) ^ 64).toNat)

/-- the `memory_block()` default constructor as written in the source: it
delegates to `memory_block(nullptr, size)`, where `size` names the not yet
initialized member `size` of the object under construction.  The indeterminate
value that is read is made explicit as the argument `garbage`. -/
def memory_block.defaultCtor (garbage : Nat) : memory_block :=
  memory_block.fromAddrSize 0 garbage

/-- Modelled from the spec: `detail::memory_block_stack` stores blocks in an
intrusive singly linked list with LIFO access.  Its member functions
`push`/`pop`/`steal_top`/`top` are declared in `memory_arena.hpp` but defined
outside this repository snapshot.  The stack is modelled as the list of the
*allocated* blocks it owns, head of the list = top of the stack. -/
abbrev memory_block_stack : Type := List memory_block

/-- Modelled from the spec: the usable (inserted) region of an allocated block is
the block minus the fixed header of `hdr` bytes reserved for the intrusive node. -/
def usable_block (hdr : Nat) (b : memory_block) : memory_block :=
  ⟨b.memory + hdr, b.size - hdr⟩

/-- Modelled from the spec: `push` makes the block the new top of the stack. -/
def memory_block_stack.push (s : memory_block_stack) (b : memory_block) :
    memory_block_stack :=
  b :: s

/-- Modelled from the spec: `pop` removes the top node and returns the original
allocated block.  Popping an empty stack violates the precondition and is
modelled as returning the empty block and leaving the stack empty. -/
def memory_block_stack.pop : memory_block_stack → memory_block × memory_block_stack
  | [] => (⟨0, 0⟩, [])
  | b :: rest => (b, rest)

/-- Modelled from the spec: `top` returns the usable region of the current top
block without mutating the stack.  Calling it on an empty stack violates the
precondition and is modelled as the empty block. -/
def memory_block_stack.top (hdr : Nat) : memory_block_stack → memory_block
  | [] => ⟨0, 0⟩
  | b :: _ => usable_block hdr b

/-- Modelled from the spec: `dst.steal_top(other)` relinks the top node of
`other` onto `dst` in O(1).  Stealing from an empty stack violates the
precondition and is modelled as a no-op. -/
def memory_block_stack.steal_top (dst other : memory_block_stack) :
    memory_block_stack × memory_block_stack :=
  match other with
  | [] => (dst, other)
  | b :: rest => (b :: dst, rest)

/-- the `empty()` member: a head-null check. -/
def memory_block_stack.emptyCheck (s : memory_block_stack) : Bool :=
  s.isEmpty

/-- the BlockAllocator strategy concept the arena is generic over, as a record of
pure functions over an abstract strategy state `σ`.  `alloc_block` may fail, in
which case the failure propagates as `none` and the strategy state is unchanged. -/
structure BlockAllocator (σ : Type) where
  alloc_block : σ → Option (memory_block × σ)
  dealloc_block : σ → memory_block → σ
  next_size : σ → Nat

/-- a strategy call performed by an arena operation, recorded for the event
trace: either an `allocate_block` that returned `b`, or a `deallocate_block(b)`. -/
inductive StratEvent where
  | alloc (b : memory_block)
  | dealloc (b : memory_block)
deriving DecidableEq

/-- the `memory_arena` state: the two stacks `used_` and `cached_`, the two
counters `no_used_` and `no_cached_`, and the state of the owned strategy
instance. -/
structure memory_arena (σ : Type) where
  used_ : memory_block_stack
  cached_ : memory_block_stack
  no_used_ : Nat
  no_cached_ : Nat
  alloc_state : σ

/-- the `memory_arena(allocator_type allocator)` constructor: empty stacks, both
counters zero, the given strategy instance. -/
def memory_arena.ofAllocator {σ : Type} (st : σ) : memory_arena σ :=
  ⟨[], [], 0, 0, st⟩

/-- `capacity()`: `no_cached_ + no_used_` (the source's debug assertion that the
counter agrees with stack emptiness is proved below, not assumed). -/
def memory_arena.capacity {σ : Type} (a : memory_arena σ) : Nat :=
  a.no_cached_ + a.no_used_

/-- `size()`: `no_used_`. -/
def memory_arena.size {σ : Type} (a : memory_arena σ) : Nat :=
  a.no_used_

/-- `next_block_size()`: delegates to the strategy. -/
def memory_arena.next_block_size {σ : Type} (A : BlockAllocator σ)
    (a : memory_arena σ) : Nat :=
  A.next_size a.alloc_state

/-- `allocate_block()`: if `capacity() == size()` there is no cached block, so
ask the strategy for a new block and push it onto `used_`; otherwise steal the
top of `cached_` onto `used_` and decrement the cached counter.  In both
branches increment the used counter and return `used_.top()`.  If the strategy
call fails, the failure propagates before any arena field is mutated (the push
and the increment come after the strategy call in the source), so the arena is
returned unchanged with `none`.  The counter decrement uses truncated
subtraction; on the branch taken it acts on a provably positive counter. -/
def memory_arena.allocate_block {σ : Type} (hdr : Nat) (A : BlockAllocator σ)
    (a : memory_arena σ) : Option memory_block × memory_arena σ × List StratEvent :=
  if a.capacity = a.size then
    match A.alloc_block a.alloc_state with
    | none => (none, a, [])
    | some (b, st) =>
      let used' := memory_block_stack.push a.used_ b
      (some (memory_block_stack.top hdr used'),
       { a with used_ := used', no_used_ := a.no_used_ + 1, alloc_state := st },
       [StratEvent.alloc b])
  else
    let p := memory_block_stack.steal_top a.used_ a.cached_
    (some (memory_block_stack.top hdr p.1),
     { a with used_ := p.1, cached_ := p.2,
              no_cached_ := a.no_cached_ - 1, no_used_ := a.no_used_ + 1 },
     [])

/-- `deallocate_block()`: decrement the used counter, increment the cached
counter, steal the top of `used_` onto `cached_`.  No strategy interaction.
The counter decrement uses truncated subtraction; under the precondition
(`used_` non-empty plus the counter invariant) the counter is positive. -/
def memory_arena.deallocate_block {σ : Type} (a : memory_arena σ) :
    memory_arena σ :=
  let p := memory_block_stack.steal_top a.cached_ a.used_
  { a with no_used_ := a.no_used_ - 1, no_cached_ := a.no_cached_ + 1,
           cached_ := p.1, used_ := p.2 }

/-- the loop `while (!other.empty()) dst.steal_top(other);`, used both by
`shrink_to_fit` (with an empty destination) and by the destructor (with `used_`
as destination). -/
def drain_loop (dst other : memory_block_stack) :
    memory_block_stack × memory_block_stack :=
  match other with
  | [] => (dst, [])
  | b :: rest => drain_loop (b :: dst) rest

/-- the loop `while (!s.empty()) strategy.deallocate_block(s.pop());`: pops the
stack completely, handing each popped block to the strategy, and returns the
final strategy state together with the trace of strategy calls in call order. -/
def dealloc_loop {σ : Type} (A : BlockAllocator σ) :
    σ → memory_block_stack → σ × List StratEvent
  | st, [] => (st, [])
  | st, b :: rest =>
    let st' := A.dealloc_block st b
    let q := dealloc_loop A st' rest
    (q.1, StratEvent.dealloc b :: q.2)

/-- `shrink_to_fit()`: drain `cached_` completely into a temporary stack (this
reverses the order), then pop the temporary stack completely, calling the
strategy's `deallocate_block` on each popped block; finally reset the cached
counter to zero. -/
def memory_arena.shrink_to_fit {σ : Type} (A : BlockAllocator σ)
    (a : memory_arena σ) : memory_arena σ × List StratEvent :=
  let d := drain_loop [] a.cached_
  let q := dealloc_loop A a.alloc_state d.1
  ({ a with cached_ := d.2, no_cached_ := 0, alloc_state := q.1 }, q.2)

/-- the `~memory_arena()` destructor: first drain all of `cached_` onto `used_`
(`while (!cached_.empty()) used_.steal_top(cached_);`), then pop `used_`
completely, calling the strategy's `deallocate_block` on each popped block.
Returns the final strategy state and the trace of strategy calls. -/
def memory_arena.destroy {σ : Type} (A : BlockAllocator σ) (a : memory_arena σ) :
    σ × List StratEvent :=
  let d := drain_loop a.used_ a.cached_
  dealloc_loop A a.alloc_state d.1

/-- `detail::adl_swap` on a component: exchanges the two values. -/
def adl_swap {α : Type} (x y : α) : α × α :=
  (y, x)

/-- the friend `swap(memory_arena&, memory_arena&)`: exchanges the two stacks and
the two counters component-wise via `adl_swap`.  The strategy instance (the
base-class subobject) is not touched. -/
def memory_arena.swapArena {σ : Type} (a b : memory_arena σ) :
    memory_arena σ × memory_arena σ :=
  let u := adl_swap a.used_ b.used_
  let c := adl_swap a.cached_ b.cached_
  let nu := adl_swap a.no_used_ b.no_used_
  let nc := adl_swap a.no_cached_ b.no_cached_
  ({ a with used_ := u.1, cached_ := c.1, no_used_ := nu.1, no_cached_ := nc.1 },
   { b with used_ := u.2, cached_ := c.2, no_used_ := nu.2, no_cached_ := nc.2 })

/-- Modelled from the spec: the move constructor transfers both stacks, both
counters and the strategy instance and leaves the source as a valid empty arena
(spec section 4.3).  As written in the source the member initializers
`used_(detail::move(other))` and `cached_(detail::move(other))` pass the whole
arena object to `memory_block_stack`, which has no constructor from an arena, so
the written form is ill-formed once instantiated; the transfer described by the
spec is what is modelled here.  `movedFrom` is the moved-from state of the
source's strategy instance after the transfer. -/
def memory_arena.move_ctor {σ : Type} (a : memory_arena σ) (movedFrom : σ) :
    memory_arena σ × memory_arena σ :=
  ({ used_ := a.used_, cached_ := a.cached_, no_used_ := a.no_used_,
     no_cached_ := a.no_cached_, alloc_state := a.alloc_state },
   { used_ := [], cached_ := [], no_used_ := 0, no_cached_ := 0,
     alloc_state := movedFrom })

/-- the move assignment `operator=(memory_arena&& other)` (with the move
construction of `tmp` taken from the spec model above): construct `tmp` by
moving from `other`, swap `*this` with `tmp`, then destroy `tmp` (which now
holds the target's previous blocks and the source's moved strategy instance).
Returns the new target, the emptied source, and the strategy calls made by
`tmp`'s destructor. -/
def memory_arena.move_assign {σ : Type} (A : BlockAllocator σ)
    (tgt src : memory_arena σ) (movedFrom : σ) :
    memory_arena σ × memory_arena σ × List StratEvent :=
  let m := memory_arena.move_ctor src movedFrom
  let sw := memory_arena.swapArena tgt m.1
  let q := memory_arena.destroy A sw.2
  (sw.1, m.2, q.2)

/-- the arena counter invariant: each counter equals the length of its stack
(this is exactly what the source's debug assertions in `capacity()` and `size()`
check, in the stronger counted form). -/
def memory_arena.inv {σ : Type} (a : memory_arena σ) : Prop :=
  a.no_used_ = a.used_.length ∧ a.no_cached_ = a.cached_.length

/-- the blocks delivered by the strategy, extracted from an event trace in the
order the strategy delivered them (the acquisition order). -/
def allocBlocks : List StratEvent → List memory_block
  | [] => []
  | StratEvent.alloc b :: tr => b :: allocBlocks tr
  | StratEvent.dealloc _ :: tr => allocBlocks tr

/-- whether an event is a `deallocate_block` call. -/
def isDealloc : StratEvent → Bool
  | StratEvent.alloc _ => false
  | StratEvent.dealloc _ => true

/-- the states an arena can reach from construction by the in-place operations,
together with two ghosts: `acq`, the blocks the arena currently owns listed in
the order they were acquired from the strategy (oldest first), and `tr`, the
cumulative trace of every strategy call made so far.  `acq` is extended exactly
by the blocks the strategy delivers during an `allocate_block`, and shrunk by
`shrink_to_fit` to the still-owned blocks (those of `used_`; the theorem
`reach_inv` proves the released cached blocks were exactly the suffix of `acq`). -/
inductive Reach (hdr : Nat) {σ : Type} (A : BlockAllocator σ) :
    memory_arena σ → List memory_block → List StratEvent → Prop where
  | init (st : σ) : Reach hdr A (memory_arena.ofAllocator st) [] []
  | alloc {a : memory_arena σ} {acq : List memory_block} {tr : List StratEvent}
      {b : memory_block} {a' : memory_arena σ} {otr : List StratEvent} :
      Reach hdr A a acq tr →
      memory_arena.allocate_block hdr A a = (some b, a', otr) →
      Reach hdr A a' (acq ++ allocBlocks otr) (tr ++ otr)
  | dealloc {a : memory_arena σ} {acq : List memory_block} {tr : List StratEvent} :
      Reach hdr A a acq tr → a.used_ ≠ [] →
      Reach hdr A (memory_arena.deallocate_block a) acq tr
  | shrink {a : memory_arena σ} {acq : List memory_block} {tr : List StratEvent} :
      Reach hdr A a acq tr →
      Reach hdr A (memory_arena.shrink_to_fit A a).1 a.used_.reverse
        (tr ++ (memory_arena.shrink_to_fit A a).2)

theorem drain_loop_eq (other : memory_block_stack) :
    ∀ dst : memory_block_stack, drain_loop dst other = (other.reverse ++ dst, []) := by
  induction other with
  | nil => intro dst; simp [drain_loop]
  | cons b rest ih =>
    intro dst
    simp [drain_loop, ih (b :: dst)]

theorem dealloc_loop_trace {σ : Type} (A : BlockAllocator σ)
    (l : memory_block_stack) :
    ∀ st : σ, (dealloc_loop A st l).2 = l.map StratEvent.dealloc := by
  induction l with
  | nil => intro st; simp [dealloc_loop]
  | cons b rest ih => intro st; simp [dealloc_loop, ih]

theorem shrink_to_fit_eq {σ : Type} (A : BlockAllocator σ) (a : memory_arena σ) :
    memory_arena.shrink_to_fit A a =
      ({ a with
          cached_ := [],
          no_cached_ := 0,
          alloc_state := (dealloc_loop A a.alloc_state a.cached_.reverse).1 },
       a.cached_.reverse.map StratEvent.dealloc) := by
  simp [memory_arena.shrink_to_fit, drain_loop_eq, dealloc_loop_trace]

theorem destroy_trace {σ : Type} (A : BlockAllocator σ) (a : memory_arena σ) :
    (memory_arena.destroy A a).2 =
      (a.cached_.reverse ++ a.used_).map StratEvent.dealloc := by
  simp [memory_arena.destroy, drain_loop_eq, dealloc_loop_trace]

theorem allocBlocks_append (l r : List StratEvent) :
    allocBlocks (l ++ r) = allocBlocks l ++ allocBlocks r := by
  induction l with
  | nil => simp [allocBlocks]
  | cons e rest ih => cases e <;> simp [allocBlocks, ih]

theorem allocBlocks_map_dealloc (l : List memory_block) :
    allocBlocks (l.map StratEvent.dealloc) = [] := by
  induction l with
  | nil => simp [allocBlocks]
  | cons b rest ih => simp [allocBlocks, ih]

theorem countP_map_dealloc (l : List memory_block) :
    (l.map StratEvent.dealloc).countP isDealloc = l.length := by
  induction l with
  | nil => simp
  | cons b rest ih => simp [isDealloc, ih]

theorem countP_comp_dealloc (l : List memory_block) :
    l.countP (isDealloc ∘ StratEvent.dealloc) = l.length := by
  induction l with
  | nil => simp
  | cons b rest ih => simp [Function.comp, isDealloc, ih]

/-- the master invariant of reachable arena states: the counters track the stack
lengths; the acquisition ghost is exactly `used_` reversed followed by `cached_`
(so draining `cached_` onto `used_` and popping yields exact reverse acquisition
order); the ghost is a subsequence of the full strategy-delivery order; and
`capacity()` equals the number of blocks delivered by the strategy minus the
number returned to it. -/
theorem reach_inv {σ : Type} {hdr : Nat} {A : BlockAllocator σ}
    {a : memory_arena σ} {acq : List memory_block} {tr : List StratEvent}
    (h : Reach hdr A a acq tr) :
    memory_arena.inv a
    ∧ acq = a.used_.reverse ++ a.cached_
    ∧ acq.Sublist (allocBlocks tr)
    ∧ memory_arena.capacity a + tr.countP isDealloc = (allocBlocks tr).length := by
  induction h with
  | init st =>
    simp [memory_arena.ofAllocator, memory_arena.inv, memory_arena.capacity,
      allocBlocks]
  | @alloc a acq tr b a' otr _ heq ih =>
    obtain ⟨⟨h1, h2⟩, hacq, hsub, hcap⟩ := ih
    by_cases hc : a.capacity = a.size
    · -- growth branch: the cached stack is empty
      have hnc : a.no_cached_ = 0 := by
        have := hc
        simp [memory_arena.capacity, memory_arena.size] at this
        omega
      have hcached : a.cached_ = [] := by
        have := h2
        rw [hnc] at this
        exact (List.length_eq_zero.mp this.symm)
      rw [memory_arena.allocate_block, if_pos hc] at heq
      cases hA : A.alloc_block a.alloc_state with
      | none =>
        rw [hA] at heq
        simp at heq
      | some p =>
        obtain ⟨nb, nst⟩ := p
        rw [hA] at heq
        simp only [Prod.mk.injEq] at heq
        obtain ⟨hb, ha2, hotr⟩ := heq
        subst ha2
        subst hotr
        refine ⟨⟨?_, ?_⟩, ?_, ?_, ?_⟩
        · simp [memory_block_stack.push, h1]
        · simp [h2]
        · simp [memory_block_stack.push, allocBlocks, hacq, hcached]
        · simp [allocBlocks_append, allocBlocks]
          exact hsub
        · simp [memory_arena.capacity, allocBlocks_append, allocBlocks,
            List.countP_append, isDealloc] at hcap ⊢
          omega
    · -- reuse branch: the cached stack is non-empty
      have hncpos : a.no_cached_ ≠ 0 := by
        simp [memory_arena.capacity, memory_arena.size] at hc
        omega
      obtain ⟨c, cs, hcc⟩ : ∃ c cs, a.cached_ = c :: cs := by
        cases hcc : a.cached_ with
        | nil => rw [hcc] at h2; simp at h2; exact absurd h2 hncpos
        | cons c cs => exact ⟨c, cs, rfl⟩
      rw [memory_arena.allocate_block, if_neg hc] at heq
      simp only [hcc, memory_block_stack.steal_top, Prod.mk.injEq] at heq
      obtain ⟨hb, ha2, hotr⟩ := heq
      subst ha2
      subst hotr
      refine ⟨⟨?_, ?_⟩, ?_, ?_, ?_⟩
      · simp [h1]
      · simp
        rw [h2, hcc]
        simp
      · simp [allocBlocks, hacq, hcc]
      · simpa [allocBlocks] using hsub
      · have hnc1 : a.no_cached_ = cs.length + 1 := by rw [h2, hcc]; simp
        simp [memory_arena.capacity, allocBlocks] at hcap ⊢
        omega
  | @dealloc a acq tr _ hne ih =>
    obtain ⟨⟨h1, h2⟩, hacq, hsub, hcap⟩ := ih
    obtain ⟨u, us, huu⟩ : ∃ u us, a.used_ = u :: us := by
      cases huu : a.used_ with
      | nil => exact absurd huu hne
      | cons u us => exact ⟨u, us, rfl⟩
    have hnu : a.no_used_ = us.length + 1 := by rw [h1, huu]; simp
    refine ⟨⟨?_, ?_⟩, ?_, ?_, ?_⟩
    · simp [memory_arena.deallocate_block, huu, memory_block_stack.steal_top]
      omega
    · simp [memory_arena.deallocate_block, huu, memory_block_stack.steal_top, h2]
    · simp [memory_arena.deallocate_block, huu, memory_block_stack.steal_top]
      rw [hacq, huu]
      simp
    · exact hsub
    · simp [memory_arena.deallocate_block, memory_arena.capacity] at hcap ⊢
      omega
  | @shrink a acq tr _ ih =>
    obtain ⟨⟨h1, h2⟩, hacq, hsub, hcap⟩ := ih
    rw [shrink_to_fit_eq]
    refine ⟨⟨?_, ?_⟩, ?_, ?_, ?_⟩
    · simpa using h1
    · simp
    · simp
    · have hpre : a.used_.reverse.Sublist acq := by
        rw [hacq]; exact List.sublist_append_left _ _
      have hall : a.used_.reverse.Sublist (allocBlocks tr) := hpre.trans hsub
      simpa [allocBlocks_append, allocBlocks_map_dealloc,
        ← List.map_reverse] using hall
    · simp [memory_arena.capacity, allocBlocks_append, allocBlocks_map_dealloc,
        List.countP_append, countP_map_dealloc, countP_comp_dealloc,
        ← List.map_reverse] at hcap ⊢
      omega

theorem count_dealloc_map (l : List memory_block) (b : memory_block) :
    (l.map StratEvent.dealloc).count (StratEvent.dealloc b) = l.count b :=
  List.count_map_of_injective l StratEvent.dealloc
    (fun x y hxy => StratEvent.dealloc.injEq x y ▸ hxy) b

/-- C1: in every reachable arena state, `capacity()` equals `size()` plus the
cached count, `no_used_ == 0` holds iff the used stack is empty, `no_cached_ == 0`
holds iff the cached stack is empty, and `capacity()` equals (hence never
exceeds) the number of blocks obtained from the strategy and not yet returned.
Reachability is closed under `allocate_block`, `deallocate_block` and
`shrink_to_fit`, so those operations preserve the invariant; the second and
third conjuncts show that move and swap preserve it as well. -/
theorem C1_arena_counter_stack_consistency {σ : Type} (hdr : Nat)
    (A : BlockAllocator σ) :
    (∀ (a : memory_arena σ) (acq : List memory_block) (tr : List StratEvent),
      Reach hdr A a acq tr →
        memory_arena.capacity a = memory_arena.size a + a.no_cached_
      ∧ (a.no_used_ = 0 ↔ a.used_ = [])
      ∧ (a.no_cached_ = 0 ↔ a.cached_ = [])
      ∧ memory_arena.capacity a + tr.countP isDealloc = (allocBlocks tr).length)
    ∧ (∀ (a : memory_arena σ) (m : σ), memory_arena.inv a →
        memory_arena.inv (memory_arena.move_ctor a m).1
      ∧ memory_arena.inv (memory_arena.move_ctor a m).2
      ∧ memory_arena.capacity (memory_arena.move_ctor a m).1 = memory_arena.capacity a
      ∧ memory_arena.capacity (memory_arena.move_ctor a m).2 = 0)
    ∧ (∀ a b : memory_arena σ, memory_arena.inv a → memory_arena.inv b →
        memory_arena.inv (memory_arena.swapArena a b).1
      ∧ memory_arena.inv (memory_arena.swapArena a b).2) := by
  refine ⟨?_, ?_, ?_⟩
  · intro a acq tr h
    obtain ⟨⟨h1, h2⟩, _, _, hcap⟩ := reach_inv h
    refine ⟨Nat.add_comm _ _, ?_, ?_, hcap⟩
    · rw [h1]; exact List.length_eq_zero
    · rw [h2]; exact List.length_eq_zero
  · intro a m hinv
    obtain ⟨h1, h2⟩ := hinv
    exact ⟨⟨h1, h2⟩, ⟨rfl, rfl⟩, rfl, rfl⟩
  · intro a b ha hb
    obtain ⟨ha1, ha2⟩ := ha
    obtain ⟨hb1, hb2⟩ := hb
    exact ⟨⟨hb1, hb2⟩, ⟨ha1, ha2⟩⟩

/-- C2: destroying a reachable arena calls the strategy's `deallocate_block`
exactly once for each block the arena still owns (the acquisition ghost `acq`,
which is all of used plus all of cached by `reach_inv`), in strict reverse of
acquisition order; when the owned blocks are pairwise distinct no block is
released twice.  The sublist conjunct grounds the ghost: `acq` lists the owned
blocks in the order the strategy delivered them. -/
theorem C2_destruction_releases_all_in_reverse {σ : Type} {hdr : Nat}
    {A : BlockAllocator σ} {a : memory_arena σ} {acq : List memory_block}
    {tr : List StratEvent} (h : Reach hdr A a acq tr) :
    (memory_arena.destroy A a).2 = acq.reverse.map StratEvent.dealloc
    ∧ acq.Sublist (allocBlocks tr)
    ∧ (acq.Nodup → ∀ b ∈ acq,
        (memory_arena.destroy A a).2.count (StratEvent.dealloc b) = 1) := by
  obtain ⟨_, hacq, hsub, _⟩ := reach_inv h
  have htr : (memory_arena.destroy A a).2 = acq.reverse.map StratEvent.dealloc := by
    rw [destroy_trace, hacq]
    simp
  refine ⟨htr, hsub, ?_⟩
  intro hnd b hb
  rw [htr, count_dealloc_map]
  rw [List.count_reverse]
  exact List.count_eq_one_of_mem hnd hb

/-- C3: on every reachable arena state, `shrink_to_fit` drives the cached count
to 0 and empties the cached stack, leaves the used stack and counter untouched,
and calls the strategy's `deallocate_block` exactly once per block of the cached
stack and on no other block, in exact reverse of the blocks' original
acquisition order (by `reach_inv` the cached stack is precisely the most
recently acquired suffix of the acquisition ghost, and the emitted trace is its
reversal). -/
theorem C3_shrink_to_fit_releases_cached {σ : Type} {hdr : Nat}
    {A : BlockAllocator σ} {a : memory_arena σ} {acq : List memory_block}
    {tr : List StratEvent} (h : Reach hdr A a acq tr) :
    (memory_arena.shrink_to_fit A a).1.no_cached_ = 0
    ∧ (memory_arena.shrink_to_fit A a).1.cached_ = []
    ∧ (memory_arena.shrink_to_fit A a).1.used_ = a.used_
    ∧ (memory_arena.shrink_to_fit A a).1.no_used_ = a.no_used_
    ∧ (memory_arena.shrink_to_fit A a).2 = a.cached_.reverse.map StratEvent.dealloc
    ∧ a.cached_ = acq.drop a.used_.length
    ∧ (acq.Nodup → ∀ b ∈ a.cached_,
        (memory_arena.shrink_to_fit A a).2.count (StratEvent.dealloc b) = 1) := by
  obtain ⟨_, hacq, _, _⟩ := reach_inv h
  have hdrop : a.cached_ = acq.drop a.used_.length := by
    rw [hacq]
    rw [show a.used_.length = a.used_.reverse.length by simp]
    rw [List.drop_left]
  refine ⟨?_, ?_, ?_, ?_, ?_, hdrop, ?_⟩
  · rw [shrink_to_fit_eq]
  · rw [shrink_to_fit_eq]
  · rw [shrink_to_fit_eq]
  · rw [shrink_to_fit_eq]
  · rw [shrink_to_fit_eq]
  · intro hnd b hb
    have hcnd : a.cached_.Nodup := by
      rw [hdrop]
      exact hnd.sublist (List.drop_sublist ..)
    rw [shrink_to_fit_eq]
    simp only
    rw [count_dealloc_map, List.count_reverse]
    exact List.count_eq_one_of_mem hcnd hb

/-- C4: on any arena state satisfying the counter invariant and with a non-empty
used stack, `deallocate_block()` immediately followed by `allocate_block()`
returns the usable region of the very block that was just deallocated (same
address and size), restores the arena state exactly, and performs no strategy
call (the emitted trace is empty). -/
theorem C4_reuse_round_trip {σ : Type} (hdr : Nat) (A : BlockAllocator σ)
    (a : memory_arena σ) (hinv : memory_arena.inv a) (hne : a.used_ ≠ []) :
    memory_arena.allocate_block hdr A (memory_arena.deallocate_block a) =
      (some (memory_block_stack.top hdr a.used_), a, []) := by
  obtain ⟨used, cached, nu, nc, st⟩ := a
  obtain ⟨h1, h2⟩ := hinv
  cases used with
  | nil => exact absurd rfl hne
  | cons u us =>
    have hnu : nu = us.length + 1 := by simpa using h1
    have hd : memory_arena.deallocate_block ⟨u :: us, cached, nu, nc, st⟩ =
        ⟨us, u :: cached, nu - 1, nc + 1, st⟩ := rfl
    rw [hd, memory_arena.allocate_block,
      if_neg (by simp [memory_arena.capacity, memory_arena.size])]
    simp [memory_block_stack.steal_top, memory_block_stack.top,
      memory_arena.mk.injEq]
    omega

/-- C5: branch semantics of `allocate_block`.  If `capacity() == size()` and the
strategy delivers a block, the arena pushes the delivered block onto the used
stack, records the new strategy state, increments the used counter, performs
exactly one strategy call, and returns the usable region of the new top of the
used stack.  Otherwise the cached stack is non-empty (given the counter
invariant); the arena moves its top block onto the used stack, decrements the
cached counter, increments the used counter, performs no strategy call, and
returns the usable region of the moved block. -/
theorem C5_allocate_block_branch_semantics {σ : Type} (hdr : Nat)
    (A : BlockAllocator σ) (a : memory_arena σ) (hinv : memory_arena.inv a) :
    (memory_arena.capacity a = memory_arena.size a →
      ∀ (b : memory_block) (st : σ), A.alloc_block a.alloc_state = some (b, st) →
        memory_arena.allocate_block hdr A a =
          (some (memory_block_stack.top hdr (b :: a.used_)),
           ⟨b :: a.used_, a.cached_, a.no_used_ + 1, a.no_cached_, st⟩,
           [StratEvent.alloc b]))
    ∧ (memory_arena.capacity a ≠ memory_arena.size a →
      ∃ c cs, a.cached_ = c :: cs ∧
        memory_arena.allocate_block hdr A a =
          (some (memory_block_stack.top hdr (c :: a.used_)),
           ⟨c :: a.used_, cs, a.no_used_ + 1, a.no_cached_ - 1, a.alloc_state⟩,
           [])) := by
  obtain ⟨h1, h2⟩ := hinv
  constructor
  · intro hc b st hA
    rw [memory_arena.allocate_block, if_pos hc, hA]
    rfl
  · intro hc
    have hncpos : a.no_cached_ ≠ 0 := by
      simp [memory_arena.capacity, memory_arena.size] at hc
      omega
    obtain ⟨c, cs, hcc⟩ : ∃ c cs, a.cached_ = c :: cs := by
      cases hcx : a.cached_ with
      | nil => rw [hcx] at h2; simp at h2; exact absurd h2 hncpos
      | cons c cs => exact ⟨c, cs, rfl⟩
    refine ⟨c, cs, hcc, ?_⟩
    rw [memory_arena.allocate_block, if_neg hc]
    simp only [hcc, memory_block_stack.steal_top]

/-- C6: atomicity on growth failure.  When `allocate_block` takes the growth
branch (`capacity() == size()`) and the strategy's `allocate_block` fails, the
failure propagates unaltered and the arena — both stacks and both counters — is
returned exactly as it was, with no strategy event recorded beyond the failed
call. -/
theorem C6_growth_failure_atomicity {σ : Type} (hdr : Nat)
    (A : BlockAllocator σ) (a : memory_arena σ)
    (hcap : memory_arena.capacity a = memory_arena.size a)
    (hfail : A.alloc_block a.alloc_state = none) :
    memory_arena.allocate_block hdr A a = (none, a, []) := by
  rw [memory_arena.allocate_block, if_pos hcap, hfail]

/-- C8: on any arena state satisfying the counter invariant and with used stack
`u :: us`, `deallocate_block()` moves exactly the top block `u` of the used
stack onto the cached stack, decrements the used counter by exactly one,
increments the cached counter by one, leaves the strategy state untouched (it
makes no strategy call and cannot fail), and leaves all other blocks of both
stacks unchanged. -/
theorem C8_deallocate_block_semantics {σ : Type} (a : memory_arena σ)
    (u : memory_block) (us : List memory_block)
    (hinv : memory_arena.inv a) (hu : a.used_ = u :: us) :
    memory_arena.deallocate_block a =
      ⟨us, u :: a.cached_, a.no_used_ - 1, a.no_cached_ + 1, a.alloc_state⟩
    ∧ (memory_arena.deallocate_block a).no_used_ + 1 = a.no_used_
    ∧ (memory_arena.deallocate_block a).alloc_state = a.alloc_state := by
  obtain ⟨used, cached, nu, nc, st⟩ := a
  obtain ⟨h1, h2⟩ := hinv
  subst hu
  have hnu : nu = us.length + 1 := by simpa using h1
  refine ⟨rfl, ?_, rfl⟩
  simp [memory_arena.deallocate_block, memory_block_stack.steal_top]
  omega

/-- C10: the friend `swap` on two arenas exchanges exactly the used stacks, the
cached stacks and the two counters, and nothing else: each arena keeps its own
strategy (allocator) instance. -/
theorem C10_swap_keeps_own_allocator {σ : Type} (a b : memory_arena σ) :
    memory_arena.swapArena a b =
      (⟨b.used_, b.cached_, b.no_used_, b.no_cached_, a.alloc_state⟩,
       ⟨a.used_, a.cached_, a.no_used_, a.no_cached_, b.alloc_state⟩) :=
  rfl

/-- C9: evaluation of the three `memory_block` construction forms.  The
(address, size) form stores exactly the pair, and the (begin, end) form with
`begin <= end` yields address `begin` and size `end - begin`.  The default form
as written, however, delegates to `memory_block(nullptr, size)` reading the
still-uninitialized member `size`; evaluated at the indeterminate value 1 it
yields size 1, not the empty block the specification describes. -/
theorem C9_block_construction_default_bug :
    (memory_block.fromAddrSize 7 42).memory = 7
  ∧ (memory_block.fromAddrSize 7 42).size = 42
  ∧ (memory_block.fromRange 10 25).memory = 10
  ∧ (memory_block.fromRange 10 25).size = 15
  ∧ (memory_block.defaultCtor 1).memory = 0
  ∧ (memory_block.defaultCtor 1).size = 1
  ∧ ¬ (memory_block.defaultCtor 1).size = 0 := by
  refine ⟨rfl, rfl, rfl, by decide, rfl, rfl, by decide⟩

/-- a concrete strategy over state `Nat`: delivers 4096-byte blocks at fresh
addresses, counting deliveries in its state; releases are accepted silently. -/
def natAlloc : BlockAllocator Nat where
  alloc_block := fun n => some (⟨4096 * n + 4096, 4096⟩, n + 1)
  dealloc_block := fun n _ => n
  next_size := fun _ => 4096

/-- a concrete strategy whose `allocate_block` always fails. -/
def failAlloc : BlockAllocator Unit where
  alloc_block := fun _ => none
  dealloc_block := fun s _ => s
  next_size := fun _ => 4096

/-- the first block `natAlloc` delivers. -/
def blk1 : memory_block := ⟨4096, 4096⟩

/-- the arena state after one `allocate_block` on a fresh `natAlloc` arena. -/
def st1 : memory_arena Nat := ⟨[blk1], [], 1, 0, 1⟩

/-- the state after a further `deallocate_block`: `blk1` is cached. -/
def st2 : memory_arena Nat := ⟨[], [blk1], 0, 1, 1⟩

theorem reach_st1 : Reach 16 natAlloc st1 [blk1] [StratEvent.alloc blk1] := by
  have h0 : memory_arena.allocate_block 16 natAlloc (memory_arena.ofAllocator 0) =
      (some ⟨4112, 4080⟩, st1, [StratEvent.alloc blk1]) := rfl
  exact Reach.alloc (Reach.init 0) h0

theorem reach_st2 : Reach 16 natAlloc st2 [blk1] [StratEvent.alloc blk1] :=
  Reach.dealloc reach_st1 (by decide)

/-- C7: the move-transfer claim evaluated on the spec-modelled move assignment
(the move constructor as written is ill-formed, see `memory_arena.move_ctor`):
after `tgt = move(src)` via the temporary-and-swap idiom, the target keeps its
own strategy instance (state 77) rather than receiving the source's (state 5),
because the friend `swap` exchanges only the stacks and the counters — so the
claimed transfer of the strategy instance does not take place on assignment. -/
theorem C7_move_assign_keeps_target_allocator :
    (memory_arena.move_assign natAlloc ⟨[], [], 0, 0, 77⟩ ⟨[], [], 0, 0, 5⟩ 0).1.alloc_state = 77
  ∧ ¬ (memory_arena.move_assign natAlloc ⟨[], [], 0, 0, 77⟩ ⟨[], [], 0, 0, 5⟩ 0).1.alloc_state = 5 := by
  exact ⟨rfl, by decide⟩

/-- C1 witness: the consistency theorem applied at the concrete reachable state
`st1` and at a concrete move source. -/
theorem C1_witness :
    memory_arena.capacity st1 = memory_arena.size st1 + st1.no_cached_
  ∧ (st1.no_cached_ = 0 ↔ st1.cached_ = [])
  ∧ memory_arena.capacity (memory_arena.move_ctor st1 0).2 = 0 := by
  obtain ⟨hreach, hmove, hswap⟩ :=
    C1_arena_counter_stack_consistency (σ := Nat) 16 natAlloc
  obtain ⟨c1, c2, c3, c4⟩ := hreach st1 [blk1] [StratEvent.alloc blk1] reach_st1
  exact ⟨c1, c3, (hmove st1 0 ⟨rfl, rfl⟩).2.2.2⟩

/-- C2 witness: destroying the concrete one-block arena `st1` emits exactly one
release, of `blk1`. -/
theorem C2_witness :
    (memory_arena.destroy natAlloc st1).2 = [StratEvent.dealloc blk1]
  ∧ (memory_arena.destroy natAlloc st1).2.count (StratEvent.dealloc blk1) = 1 := by
  obtain ⟨h1, _, h3⟩ := C2_destruction_releases_all_in_reverse reach_st1
  exact ⟨h1, h3 (by decide) blk1 (by decide)⟩

/-- C3 witness: shrinking the concrete arena `st2` (one cached block) zeroes the
cached counter and releases exactly `blk1`. -/
theorem C3_witness :
    (memory_arena.shrink_to_fit natAlloc st2).1.no_cached_ = 0
  ∧ (memory_arena.shrink_to_fit natAlloc st2).2 = [StratEvent.dealloc blk1] := by
  obtain ⟨h1, _, _, _, h5, _, _⟩ := C3_shrink_to_fit_releases_cached reach_st2
  exact ⟨h1, h5⟩

/-- C4 witness: on `st1`, deallocate-then-allocate returns the usable region of
`blk1` (header 16: address 4112, size 4080), restores `st1` exactly, and makes
no strategy call. -/
theorem C4_witness :
    memory_arena.allocate_block 16 natAlloc (memory_arena.deallocate_block st1) =
      (some ⟨4112, 4080⟩, st1, []) :=
  C4_reuse_round_trip 16 natAlloc st1 ⟨rfl, rfl⟩ (by decide)

/-- C5 witness: on `st1` (no cached block) the growth branch delivers the
strategy's next block at 8192 and pushes it, with exactly one strategy call. -/
theorem C5_witness :
    memory_arena.allocate_block 16 natAlloc st1 =
      (some ⟨8208, 4080⟩, ⟨[⟨8192, 4096⟩, blk1], [], 2, 0, 2⟩,
       [StratEvent.alloc ⟨8192, 4096⟩]) :=
  (C5_allocate_block_branch_semantics 16 natAlloc st1 ⟨rfl, rfl⟩).1 rfl
    ⟨8192, 4096⟩ 2 rfl

/-- C6 witness: on an empty arena over the always-failing strategy, allocation
fails and returns the arena unchanged. -/
theorem C6_witness :
    memory_arena.allocate_block 16 failAlloc (memory_arena.ofAllocator ()) =
      (none, memory_arena.ofAllocator (), []) :=
  C6_growth_failure_atomicity 16 failAlloc (memory_arena.ofAllocator ()) rfl rfl

/-- C8 witness: deallocating on `st1` moves `blk1` to the cached stack and
adjusts both counters by exactly one. -/
theorem C8_witness :
    memory_arena.deallocate_block st1 = ⟨[], [blk1], 0, 1, 1⟩
  ∧ (memory_arena.deallocate_block st1).no_used_ + 1 = st1.no_used_ := by
  obtain ⟨h1, h2, _⟩ := C8_deallocate_block_semantics st1 blk1 [] ⟨rfl, rfl⟩ rfl
  exact ⟨h1, h2⟩

end MemoryArena
